import Mathlib

/-!
Verification development for the `SmartChunker` / `HierarchicalChunker` /
`StructuredChunker` text-chunking module (`app/processors/chunker.py`).

Texts are embedded as `List Char`, positions as `Nat` (Python ints are
non-negative wherever they are used as indices; `_calculate_boundary_score`
takes an `Int` to reflect its `position <= 0` test).  Scores (Python floats
built from the exact constants 0.7, 0.3, 1.0, 0.1 and small integer ratios)
are embedded as `ℚ`.  The external `nltk.word_tokenize`-based token counter
and the md5-based chunk-id generator are injected as function parameters
(`tok`, `cid`), mirroring how the code delegates to those libraries.
The `while` loop of `_create_chunks` is embedded with explicit fuel; a
result of `none` means the loop did not finish within the given fuel.
-/

/-- Python `\s` for the ASCII characters that occur here (`str.strip`,
`re` whitespace class). -/
def isPySpace (c : Char) : Bool :=
  c = ' ' || c = '\t' || c = '\n' || c = '\r' || c = Char.ofNat 11 || c = Char.ofNat 12

/-- Python slicing `s[a:b]` for `0 ≤ a ≤ b` (clamping at the ends like Python). -/
def pySlice (s : List Char) (a b : Nat) : List Char :=
  (s.take b).drop a

/-- Python `str.strip()`. -/
def pyStrip (s : List Char) : List Char :=
  (((s.dropWhile isPySpace).reverse.dropWhile isPySpace)).reverse

mutual

/-- `re.sub(r'\s+', ' ', text)`: replace each maximal whitespace run by a
single space (`skipWs` consumes the rest of a run already replaced). -/
def collapseWs : List Char → List Char
  | [] => []
  | c :: cs => if isPySpace c then ' ' :: skipWs cs else c :: collapseWs cs

def skipWs : List Char → List Char
  | [] => []
  | c :: cs => if isPySpace c then skipWs cs else c :: collapseWs cs

end

/-- `text.replace('\r\n', '\n')`. -/
def replaceCRLF : List Char → List Char
  | '\r' :: '\n' :: cs => '\n' :: replaceCRLF cs
  | c :: cs => c :: replaceCRLF cs
  | [] => []

/-- `SmartChunker._preprocess_text`: collapse whitespace, normalize newlines,
strip. -/
def preprocess (s : List Char) : List Char :=
  pyStrip ((replaceCRLF (collapseWs s)).map (fun c => if c = '\r' then '\n' else c))

/-- Python `enumerate` starting at `n`. -/
def enumFrom : Nat → List α → List (Nat × α)
  | _, [] => []
  | n, x :: xs => (n, x) :: enumFrom (n + 1) xs

/-- The ten `boundary_markers` regex patterns, in catalogue order. -/
inductive Pat where
  | newlineBlock   -- r'\n\s*\n+'
  | sentCap        -- r'(?<=[.!?])\s+(?=[A-Z])'
  | colonCap       -- r'(?<=:)\s+(?=[A-Z])'
  | sentEnd        -- r'(?<=[.!?])\s+'
  | semi           -- r'(?<=;)\s+'
  | newlines       -- r'\n+'
  | comma          -- r'(?<=,)\s+'
  | colon          -- r'(?<=:)\s+'
  | dash           -- r'\s-\s'
  | spaces         -- r'\s\s+'
deriving DecidableEq

/-- The `boundary_markers` list (strong to weak). -/
def boundaryMarkers : List Pat :=
  [Pat.newlineBlock, Pat.sentCap, Pat.colonCap, Pat.sentEnd, Pat.semi,
   Pat.newlines, Pat.comma, Pat.colon, Pat.dash, Pat.spaces]

/-- Length of the maximal run of characters satisfying `p` at offset `i`. -/
def runLen (p : Char → Bool) (s : List Char) (i : Nat) : Nat :=
  ((s.drop i).takeWhile p).length

/-- The character just before offset `i`, if any (regex lookbehind). -/
def charBefore (s : List Char) (i : Nat) : Option Char :=
  match i with
  | 0 => none
  | j + 1 => s.get? j

/-- Does the character before `i` satisfy `p` (for `(?<=...)`)? -/
def prevSat (p : Char → Bool) (s : List Char) (i : Nat) : Bool :=
  match charBefore s i with
  | some c => p c
  | none => false

def isSentPunct (c : Char) : Bool := c = '.' || c = '!' || c = '?'

def isUpperAZ (c : Char) : Bool := 'A' ≤ c && c ≤ 'Z'

/-- Index (within the whitespace run of length `r` starting at `i`) of the
last `'\n'`, used for the greedy match of `\n\s*\n+`. -/
def lastNlInRun (s : List Char) (i r : Nat) : Option Nat :=
  match (((s.drop i).take r).reverse.findIdx? (fun c => c = '\n')) with
  | some j => some (r - 1 - j)
  | none => none

/-- Greedy regex match of a single catalogue pattern at offset `i`:
`some len` is the length of the (leftmost-starting, greedy) match beginning
exactly at `i`; `none` if no match begins at `i`.  All ten patterns consume
at least one character. -/
def matchAt (p : Pat) (s : List Char) (i : Nat) : Option Nat :=
  match p with
  | Pat.newlineBlock =>
    if s.get? i = some '\n' then
      match lastNlInRun s (i + 1) (runLen isPySpace s (i + 1)) with
      | some k => some (k + 2)
      | none => none
    else none
  | Pat.sentCap =>
    let r := runLen isPySpace s i
    if prevSat isSentPunct s i && decide (1 ≤ r) &&
        (match s.get? (i + r) with | some c => isUpperAZ c | none => false) then
      some r
    else none
  | Pat.colonCap =>
    let r := runLen isPySpace s i
    if prevSat (fun c => c = ':') s i && decide (1 ≤ r) &&
        (match s.get? (i + r) with | some c => isUpperAZ c | none => false) then
      some r
    else none
  | Pat.sentEnd =>
    let r := runLen isPySpace s i
    if prevSat isSentPunct s i && decide (1 ≤ r) then some r else none
  | Pat.semi =>
    let r := runLen isPySpace s i
    if prevSat (fun c => c = ';') s i && decide (1 ≤ r) then some r else none
  | Pat.newlines =>
    let r := runLen (fun c => c = '\n') s i
    if 1 ≤ r then some r else none
  | Pat.comma =>
    let r := runLen isPySpace s i
    if prevSat (fun c => c = ',') s i && decide (1 ≤ r) then some r else none
  | Pat.colon =>
    let r := runLen isPySpace s i
    if prevSat (fun c => c = ':') s i && decide (1 ≤ r) then some r else none
  | Pat.dash =>
    match s.get? i, s.get? (i + 1), s.get? (i + 2) with
    | some a, some b, some c =>
      if isPySpace a && b = '-' && isPySpace c then some 3 else none
    | _, _, _ => none
  | Pat.spaces =>
    let r := runLen isPySpace s i
    if 2 ≤ r then some r else none

/-- `re.finditer(pattern, s)`: start offsets of the non-overlapping,
leftmost, greedy matches.  The fuel argument (`s.length + 1` at the top
call) bounds the scan; every match consumes at least one character, so the
fuel is never exhausted before the end of `s`. -/
def findIterAux (p : Pat) (s : List Char) : Nat → Nat → List Nat
  | _, 0 => []
  | i, fuel + 1 =>
    if s.length ≤ i then []
    else
      match matchAt p s i with
      | some len => i :: findIterAux p s (i + len) fuel
      | none => findIterAux p s (i + 1) fuel

def findIter (p : Pat) (s : List Char) : List Nat :=
  findIterAux p s 0 (s.length + 1)

/-- The `SmartChunker` constructor parameters (`__init__`). -/
structure Config where
  target_chunk_size : Nat
  min_chunk_size : Nat
  max_chunk_size : Nat
  overlap_size : Nat
  smart_overlap : Bool
deriving DecidableEq

/-- The default construction `SmartChunker()`. -/
def defaultConfig : Config :=
  { target_chunk_size := 512, min_chunk_size := 128, max_chunk_size := 1024,
    overlap_size := 50, smart_overlap := true }

/-- `SmartChunker._find_split_points`: match starts of every boundary
marker, plus `0` and `len(text)`, as a sorted duplicate-free list
(Python builds a `set` and sorts it). -/
def findSplitPoints (s : List Char) : List Nat :=
  ((0 :: s.length :: boundaryMarkers.foldr (fun p acc => findIter p s ++ acc) []).dedup).insertionSort (· ≤ ·)

/-- One pattern qualifies at interior `position` when some of its matches in
the ±10-character context window starts within distance `< 3` of
`position` (`_calculate_boundary_score`, inner loop). -/
def qualifies (s : List Char) (position : Int) (p : Pat) : Bool :=
  let pos := position.toNat
  let contextStart := pos - 10
  let contextEnd := min s.length (pos + 10)
  let context := pySlice s contextStart contextEnd
  (findIter p context).any (fun st => ((contextStart + st : Int) - position).natAbs < 3)

/-- The `for i, pattern in enumerate(self.boundary_markers)` loop of
`_calculate_boundary_score`, returning on the first qualifying pattern. -/
def bsGo (s : List Char) (position : Int) : List Pat → Nat → ℚ
  | [], _ => 1 / 10
  | p :: ps, i =>
    if qualifies s position p then 1 - (i : ℚ) / (boundaryMarkers.length : ℚ)
    else bsGo s position ps (i + 1)

/-- `SmartChunker._calculate_boundary_score`. -/
def calcBoundaryScore (s : List Char) (position : Int) : ℚ :=
  if position ≤ 0 ∨ (s.length : Int) ≤ position then 1
  else bsGo s position boundaryMarkers 0

/-- The candidate-collection loop of `_find_best_end_point`: for each
valid end point in order, keep `(end, token_count, score)` when the token
count reaches `min_chunk_size`, and stop as soon as a kept candidate
reaches `max_chunk_size`. -/
def collectCandidates (cfg : Config) (tok : List Char → Nat) (s : List Char)
    (start : Nat) : List Nat → List (Nat × Nat × ℚ)
  | [] => []
  | e :: rest =>
    let tc := tok (pySlice s start e)
    if cfg.min_chunk_size ≤ tc then
      let sizeScore : ℚ := 1 - |(tc : ℚ) - (cfg.target_chunk_size : ℚ)| / (cfg.target_chunk_size : ℚ)
      let boundaryScore := calcBoundaryScore s (e : Int)
      let score := sizeScore * (7 / 10) + boundaryScore * (3 / 10)
      if cfg.max_chunk_size ≤ tc then [(e, tc, score)]
      else (e, tc, score) :: collectCandidates cfg tok s start rest
    else collectCandidates cfg tok s start rest

/-- Stable insertion step for a descending sort on the score component
(`candidates.sort(key=lambda x: x[2], reverse=True)`; Python's sort is
stable, so equal scores keep their original relative order). -/
def insertDesc (x : Nat × Nat × ℚ) : List (Nat × Nat × ℚ) → List (Nat × Nat × ℚ)
  | [] => [x]
  | y :: ys => if y.2.2 ≤ x.2.2 then x :: y :: ys else y :: insertDesc x ys

def sortDesc : List (Nat × Nat × ℚ) → List (Nat × Nat × ℚ)
  | [] => []
  | x :: xs => insertDesc x (sortDesc xs)

/-- `SmartChunker._find_best_end_point`. -/
def findBestEndPoint (cfg : Config) (tok : List Char → Nat) (s : List Char)
    (start : Nat) (splitPoints : List Nat) : Nat :=
  let valid := splitPoints.filter (fun p => start < p)
  match valid with
  | [] => s.length
  | v0 :: _ =>
    match sortDesc (collectCandidates cfg tok s start valid) with
    | [] => min v0 (start + cfg.max_chunk_size)
    | best :: _ => best.1

/-- The inner loop of `_find_good_boundary`: the first pattern with any
match in the section, together with the first and last match starts. -/
def fgbGo (sec : List Char) : List Pat → Option (Nat × Nat)
  | [] => none
  | p :: ps =>
    match findIter p sec with
    | [] => fgbGo sec ps
    | m :: ms => some (m, ms.foldl (fun _ x => x) m)

/-- `SmartChunker._find_good_boundary`. -/
def findGoodBoundary (s : List Char) (start stop : Nat) (forward : Bool) : Nat :=
  match fgbGo (pySlice s start stop) boundaryMarkers with
  | some (first, last) => start + (if forward then first else last)
  | none => if forward then start else stop

/-- The `next_start` computation at the bottom of the `_create_chunks`
loop body (smart overlap vs. simple overlap). -/
def nextStart (cfg : Config) (s : List Char) (cur be : Nat) : Nat :=
  if cfg.smart_overlap then
    findGoodBoundary s (max cur (be - cfg.overlap_size)) be true
  else
    max (cur + 1) (be - cfg.overlap_size)

/-- The `while current_start < len(text)` loop of
`SmartChunker._create_chunks`, with explicit fuel (`none` = the loop does
not finish within `fuel` iterations). -/
def createChunksAux (cfg : Config) (tok : List Char → Nat) (s : List Char)
    (splitPoints : List Nat) : Nat → Nat → Option (List (List Char))
  | 0, _ => none
  | fuel + 1, cur =>
    if s.length ≤ cur then some []
    else
      let be := findBestEndPoint cfg tok s cur splitPoints
      let chunk := pyStrip (pySlice s cur be)
      match createChunksAux cfg tok s splitPoints fuel (nextStart cfg s cur be) with
      | none => none
      | some rest => some (if chunk = [] then rest else chunk :: rest)

def createChunks (cfg : Config) (tok : List Char → Nat) (s : List Char)
    (splitPoints : List Nat) (fuel : Nat) : Option (List (List Char)) :=
  createChunksAux cfg tok s splitPoints fuel 0

/-- JSON-like values: documents, field values and chunk-dict values. -/
inductive JValue where
  | str : List Char → JValue
  | num : Int → JValue
  | bool : Bool → JValue
  | null : JValue
  | arr : List JValue → JValue
  | obj : List (List Char × JValue) → JValue

/-- A Python dict with string keys in insertion order. -/
abbrev PyDict := List (List Char × JValue)

/-- Python `d[k] = v`: replace in place if the key exists, else append. -/
def setKey : PyDict → List Char → JValue → PyDict
  | [], k, v => [(k, v)]
  | (k', v') :: rest, k, v =>
    if k' = k then (k, v) :: rest else (k', v') :: setKey rest k v

/-- Python `d.get(k)` / `k in d` lookup (first matching key). -/
def pyGet : PyDict → List Char → Option JValue
  | [], _ => none
  | (k', v') :: rest, k => if k' = k then some v' else pyGet rest k

def kText : List Char := "text".toList
def kChunkId : List Char := "chunk_id".toList
def kChunkIndex : List Char := "chunk_index".toList
def kTotalChunks : List Char := "total_chunks".toList

/-- The chunk dict built in `SmartChunker.chunk_text` for chunk `c` at
index `i` of `total` chunks: the four fixed entries, then the caller's
metadata entries assigned one by one. -/
def mkChunkDict (cid : List Char → Nat → List Char) (c : List Char)
    (i total : Nat) (md : Option PyDict) : PyDict :=
  let base : PyDict :=
    [(kText, JValue.str c), (kChunkId, JValue.str (cid c i)),
     (kChunkIndex, JValue.num i), (kTotalChunks, JValue.num total)]
  match md with
  | none => base
  | some m => m.foldl (fun d kv => setKey d kv.1 kv.2) base

/-- `SmartChunker.chunk_text` (with the token counter `tok` and chunk-id
generator `cid` injected, and fuel for the `_create_chunks` loop). -/
def smartChunkText (cfg : Config) (tok : List Char → Nat)
    (cid : List Char → Nat → List Char) (fuel : Nat) (text : List Char)
    (md : Option PyDict) : Option (List PyDict) :=
  if pyStrip text = [] then some []
  else
    let t := preprocess text
    match createChunks cfg tok t (findSplitPoints t) fuel with
    | none => none
    | some chunks =>
      some ((enumFrom 0 chunks).map (fun ic => mkChunkDict cid ic.2 ic.1 chunks.length md))

/-- The `HierarchicalChunker` state: the inherited `SmartChunker` config
plus `levels` and `level_size_multiplier`. -/
structure HChunker where
  cfg : Config
  levels : Nat
  level_size_multiplier : ℚ

/-- `int(size * (self.level_size_multiplier ** level))` (truncation; for
the non-negative values arising here, truncation is the floor). -/
def scaledSize (size : Nat) (m : ℚ) (level : Nat) : Nat :=
  (⌊(size : ℚ) * m ^ level⌋).toNat

/-- The configuration held in `self` between the per-level assignments
`self.target_chunk_size = level_target_size; self.max_chunk_size =
level_max_size` and their restoration. -/
def stateDuring (c : Config) (m : ℚ) (level : Nat) : Config :=
  { c with target_chunk_size := scaledSize c.target_chunk_size m level,
           max_chunk_size := scaledSize c.max_chunk_size m level }

def kLevel : List Char := "level".toList
def kIsHierarchical : List Char := "is_hierarchical".toList
def kIsSummary : List Char := "is_summary".toList

/-- The per-chunk tagging loop of `HierarchicalChunker.chunk_text`:
`chunk['level'] = level`, `chunk['is_hierarchical'] = True`, and for
`level > 0` also `chunk['is_summary'] = True`. -/
def tagChunk (level : Nat) (d : PyDict) : PyDict :=
  let d1 := setKey d kLevel (JValue.num level)
  let d2 := setKey d1 kIsHierarchical (JValue.bool true)
  if 0 < level then setKey d2 kIsSummary (JValue.bool true) else d2

/-- One iteration of the `for level in range(self.levels)` loop: scale the
sizes, write them into the shared config, run the inherited `chunk_text`,
tag the chunks, restore the original sizes.  Returns the config as left
behind by the iteration together with the level's chunks. -/
def hierStep (h : HChunker) (tok : List Char → Nat)
    (cid : List Char → Nat → List Char) (fuel : Nat) (text : List Char)
    (md : Option PyDict) (c : Config) (level : Nat) :
    Config × Option (List PyDict) :=
  let levelTarget := scaledSize c.target_chunk_size h.level_size_multiplier level
  let levelMax := scaledSize c.max_chunk_size h.level_size_multiplier level
  let originalTarget := c.target_chunk_size
  let originalMax := c.max_chunk_size
  let c1 := { c with target_chunk_size := levelTarget, max_chunk_size := levelMax }
  let res := (smartChunkText c1 tok cid fuel text md).map (List.map (tagChunk level))
  let c2 := { c1 with target_chunk_size := originalTarget, max_chunk_size := originalMax }
  (c2, res)

/-- The level loop of `HierarchicalChunker.chunk_text`, threading the
mutable config; a level whose inherited `chunk_text` does not finish
(`none`) makes the whole call `none`. -/
def hierAux (h : HChunker) (tok : List Char → Nat)
    (cid : List Char → Nat → List Char) (fuel : Nat) (text : List Char)
    (md : Option PyDict) : List Nat → Config → Config × Option (List PyDict)
  | [], c => (c, some [])
  | level :: rest, c =>
    match hierStep h tok cid fuel text md c level with
    | (c', none) => (c', none)
    | (c', some cs) =>
      match hierAux h tok cid fuel text md rest c' with
      | (c'', none) => (c'', none)
      | (c'', some acc) => (c'', some (cs ++ acc))

/-- `HierarchicalChunker.chunk_text`. -/
def hierChunkText (h : HChunker) (tok : List Char → Nat)
    (cid : List Char → Nat → List Char) (fuel : Nat) (text : List Char)
    (md : Option PyDict) : Config × Option (List PyDict) :=
  hierAux h tok cid fuel text md (List.range h.levels) h.cfg

/-- The sequence of values taken by the shared `(target_chunk_size,
max_chunk_size)` configuration during `HierarchicalChunker.chunk_text`:
for each level, the state after the two per-level assignments and the
state after the two restorations. -/
def hierTrace (h : HChunker) : List Config :=
  (List.range h.levels).foldr
    (fun level acc => stateDuring h.cfg h.level_size_multiplier level :: h.cfg :: acc) []

/-- One level's pass, described independently of the mutation protocol:
the inherited `chunk_text` run at the level-scaled configuration, its
chunks tagged with the level (used to state what the level loop computes). -/
def levelChunks (h : HChunker) (tok : List Char → Nat)
    (cid : List Char → Nat → List Char) (fuel : Nat) (text : List Char)
    (md : Option PyDict) (level : Nat) : Option (List PyDict) :=
  (smartChunkText (stateDuring h.cfg h.level_size_multiplier level) tok cid fuel text md).map
    (List.map (tagChunk level))

/-- Spec-side description of the hierarchical result: the concatenation of
independent per-level passes, each over the same full text at the
level-scaled sizes (no shared-state threading). -/
def specHierChunks (h : HChunker) (tok : List Char → Nat)
    (cid : List Char → Nat → List Char) (fuel : Nat) (text : List Char)
    (md : Option PyDict) : Option (List PyDict) :=
  (List.range h.levels).foldr
    (fun level acc =>
      match levelChunks h tok cid fuel text md level, acc with
      | some cs, some rest => some (cs ++ rest)
      | _, _ => none)
    (some [])

/-- Python truthiness of a JSON-like value. -/
def truthy : JValue → Bool
  | JValue.str s => !s.isEmpty
  | JValue.num n => n != 0
  | JValue.bool b => b
  | JValue.null => false
  | JValue.arr l => !l.isEmpty
  | JValue.obj kvs => !kvs.isEmpty

def pySplitDotGo (acc : List Char) : List Char → List (List Char)
  | [] => [acc.reverse]
  | c :: cs =>
    if c = '.' then acc.reverse :: pySplitDotGo [] cs else pySplitDotGo (c :: acc) cs

/-- Python `path.split('.')` (note `"".split('.') == [""]`). -/
def pySplitDot : List Char → List (List Char) :=
  pySplitDotGo []

/-- `part.split('[')[0]`. -/
def beforeLB (part : List Char) : List Char :=
  part.takeWhile (fun c => c ≠ '[')

/-- `part.split('[')[1].rstrip(']')` (between the first and second `'['`,
with trailing `']'` removed). -/
def indexStrOf (part : List Char) : List Char :=
  (((part.dropWhile (fun c => c ≠ '[')).drop 1).takeWhile (fun c => c ≠ '[')).reverse.dropWhile
    (fun c => c = ']') |>.reverse

/-- Digit-string value for Python `int(s)` (`none` models `ValueError`). -/
def digitsVal (ds : List Char) : Option Nat :=
  if ds = [] ∨ ¬ ds.all (fun c => c.isDigit) then none
  else some (ds.foldl (fun n c => n * 10 + (c.toNat - 48)) 0)

/-- Python `int(s)` on a string: optional surrounding whitespace, optional
sign, at least one digit; `none` models `ValueError`. -/
def pyInt (s : List Char) : Option Int :=
  let t := ((s.dropWhile isPySpace).reverse.dropWhile isPySpace).reverse
  match t with
  | '-' :: ds => (digitsVal ds).map (fun n => -(n : Int))
  | '+' :: ds => (digitsVal ds).map (fun n => (n : Int))
  | ds => (digitsVal ds).map (fun n => (n : Int))

/-- Python substring test `needle in hay` for strings. -/
def isSubstrOf (needle hay : List Char) : Bool :=
  (List.range (hay.length + 1)).any (fun i => (hay.drop i).take needle.length == needle)

/-- The per-part loop of `StructuredChunker._get_nested_value`.
`Except.error ()` models a raised `TypeError` (Python `in` applied to a
non-container, or indexing a list / string with a string); `.ok none`
models the function's own `return None` paths. -/
def gnvGo : JValue → List (List Char) → Except Unit (Option JValue)
  | cur, [] => Except.ok (some cur)
  | cur, part :: rest =>
    if part.contains '[' && part.getLast? = some ']' then
      let fieldName := beforeLB part
      match cur with
      | JValue.obj kvs =>
        match pyGet kvs fieldName with
        | some (JValue.arr elems) =>
          match pyInt (indexStrOf part) with
          | none => Except.ok none
          | some idx =>
            if 0 ≤ idx then
              match elems.get? idx.toNat with
              | some e => gnvGo e rest
              | none => Except.ok none
            else Except.ok none
        | some _ => Except.ok none
        | none => Except.ok none
      | JValue.arr elems =>
        if elems.any (fun e => match e with | JValue.str s => s = fieldName | _ => false) then
          Except.error ()
        else Except.ok none
      | JValue.str s =>
        if isSubstrOf fieldName s then Except.error () else Except.ok none
      | _ => Except.error ()
    else
      match cur with
      | JValue.obj kvs =>
        match pyGet kvs part with
        | some v => gnvGo v rest
        | none => Except.ok none
      | _ => Except.ok none

/-- `StructuredChunker._get_nested_value`. -/
def getNestedValue (root : JValue) (path : List Char) : Except Unit (Option JValue) :=
  if path = [] then Except.ok none
  else gnvGo root (pySplitDot path)

def kDocId : List Char := "doc_id".toList
def kDocType : List Char := "doc_type".toList
def kFieldPath : List Char := "field_path".toList
def kArrayIndex : List Char := "array_index".toList
def kItemId : List Char := "item_id".toList
def kId : List Char := "id".toList
def kType : List Char := "type".toList
def unknownStr : JValue := JValue.str ("unknown".toList)

/-- The optional metadata fields copied for top-level text fields. -/
def extraMetaKeys : List (List Char) :=
  ["name".toList, "title".toList, "created_at".toList, "updated_at".toList, "author".toList]

/-- Metadata for a top-level text field of
`StructuredChunker.chunk_structured_document`. -/
def topMeta (doc : PyDict) (field : List Char) : PyDict :=
  [(kDocId, (pyGet doc kId).getD unknownStr),
   (kDocType, (pyGet doc kType).getD unknownStr),
   (kFieldPath, JValue.str field)]
  ++ extraMetaKeys.foldr
      (fun mf acc => match pyGet doc mf with | some v => (mf, v) :: acc | none => acc) []

/-- Metadata for a nested text field. -/
def nestedMeta (doc : PyDict) (path : List Char) : PyDict :=
  [(kDocId, (pyGet doc kId).getD unknownStr),
   (kDocType, (pyGet doc kType).getD unknownStr),
   (kFieldPath, JValue.str path)]

/-- `f"{array_field}[{i}]"`. -/
def itemPath (arrayField : List Char) (i : Nat) : List Char :=
  arrayField ++ '[' :: (Nat.toDigits 10 i) ++ [']']

/-- Metadata for a subfield of an object element of an array field
(`item_id` appended when the element has an `id`). -/
def arrayMeta (doc : PyDict) (arrayField : List Char) (i : Nat)
    (subfield : List Char) (item : PyDict) : PyDict :=
  let base : PyDict :=
    [(kDocId, (pyGet doc kId).getD unknownStr),
     (kDocType, (pyGet doc kType).getD unknownStr),
     (kFieldPath, JValue.str (itemPath arrayField i ++ '.' :: subfield)),
     (kArrayIndex, JValue.num i)]
  match pyGet item kId with
  | some v => base ++ [(kItemId, v)]
  | none => base

/-- A text chunker as consumed by `StructuredChunker` (injected through its
constructor): `chunk_text(value, metadata)`. -/
abbrev TextChunker := JValue → PyDict → List PyDict

/-- The top-level `for field in text_fields` loop. -/
def topFieldChunks (tc : TextChunker) (doc : PyDict) (field : List Char) : List PyDict :=
  match pyGet doc field with
  | some v => if truthy v then tc v (topMeta doc field) else []
  | none => []

/-- One `nested_text_fields` path: chunks are produced only when the path
resolves to a truthy string (`if value and isinstance(value, str)`). -/
def nestedFieldChunks (tc : TextChunker) (doc : PyDict) (path : List Char) :
    Except Unit (List PyDict) :=
  match getNestedValue (JValue.obj doc) path with
  | Except.error e => Except.error e
  | Except.ok none => Except.ok []
  | Except.ok (some v) =>
    Except.ok (match v with
      | JValue.str s => if s ≠ [] then tc (JValue.str s) (nestedMeta doc path) else []
      | _ => [])

def nestedAllChunks (tc : TextChunker) (doc : PyDict) :
    List (List Char) → Except Unit (List PyDict)
  | [] => Except.ok []
  | p :: ps =>
    match nestedFieldChunks tc doc p with
    | Except.error e => Except.error e
    | Except.ok cs =>
      match nestedAllChunks tc doc ps with
      | Except.error e => Except.error e
      | Except.ok rest => Except.ok (cs ++ rest)

/-- One `array_fields` field.  Only `dict` elements are processed: the
`isinstance(item, str)` branch sits under `if isinstance(item, dict)` and
is unreachable, so non-dict elements (including bare strings) are skipped. -/
def arrayFieldChunks (tc : TextChunker) (doc : PyDict) (textFields : List (List Char))
    (arrayField : List Char) : Except Unit (List PyDict) :=
  match getNestedValue (JValue.obj doc) arrayField with
  | Except.error e => Except.error e
  | Except.ok none => Except.ok []
  | Except.ok (some v) =>
    Except.ok (match v with
      | JValue.arr items =>
        if !items.isEmpty then
          (enumFrom 0 items).foldr
            (fun ii acc =>
              (match ii.2 with
               | JValue.obj item =>
                 textFields.foldr
                   (fun subfield acc2 =>
                     (match pyGet item subfield with
                      | some sv =>
                        if truthy sv then tc sv (arrayMeta doc arrayField ii.1 subfield item)
                        else []
                      | none => []) ++ acc2) []
               | _ => []) ++ acc) []
        else []
      | _ => [])

def arraysAllChunks (tc : TextChunker) (doc : PyDict) (textFields : List (List Char)) :
    List (List Char) → Except Unit (List PyDict)
  | [] => Except.ok []
  | a :: as_ =>
    match arrayFieldChunks tc doc textFields a with
    | Except.error e => Except.error e
    | Except.ok cs =>
      match arraysAllChunks tc doc textFields as_ with
      | Except.error e => Except.error e
      | Except.ok rest => Except.ok (cs ++ rest)

/-- `StructuredChunker.chunk_structured_document`. -/
def chunkStructuredDocument (tc : TextChunker) (doc : PyDict)
    (textFields nestedTextFields arrayFields : List (List Char)) :
    Except Unit (List PyDict) :=
  let top := textFields.foldr (fun f acc => topFieldChunks tc doc f ++ acc) []
  match nestedAllChunks tc doc nestedTextFields with
  | Except.error e => Except.error e
  | Except.ok n =>
    match arraysAllChunks tc doc textFields arrayFields with
    | Except.error e => Except.error e
    | Except.ok a => Except.ok (top ++ n ++ a)

/-- Concrete token counter used to instantiate the injected
`word_tokenize`-based counter: the number of maximal non-whitespace runs.
The concrete texts evaluated here consist of whitespace-separated
alphabetic words, on which `nltk.word_tokenize` returns exactly those
words. -/
def simpleTokGo : Bool → List Char → Nat
  | _, [] => 0
  | inWord, c :: cs =>
    if isPySpace c then simpleTokGo false cs
    else (if inWord then 0 else 1) + simpleTokGo true cs

def simpleTok (s : List Char) : Nat := simpleTokGo false s

/-- Concrete chunk-id generator used to instantiate the injected md5-based
`_generate_chunk_id` (none of the claims depend on the id contents). -/
def cidZero : List Char → Nat → List Char := fun _ _ => []

def abText : List Char := "ab".toList

def cfgNoSmart : Config := { defaultConfig with smart_overlap := false }

def cfgZeroOverlap : Config := { defaultConfig with overlap_size := 0 }

/-- The hierarchical chunker of the concrete scenario in the spec:
`target=100, levels=3, multiplier=2.5`. -/
def h100 : HChunker :=
  { cfg := { defaultConfig with target_chunk_size := 100 }, levels := 3,
    level_size_multiplier := 5 / 2 }

theorem createChunksAux_succ (cfg : Config) (tok : List Char → Nat)
    (s : List Char) (sp : List Nat) (n cur : Nat) :
    createChunksAux cfg tok s sp (n + 1) cur =
      if s.length ≤ cur then some []
      else
        match createChunksAux cfg tok s sp n
            (nextStart cfg s cur (findBestEndPoint cfg tok s cur sp)) with
        | none => none
        | some rest =>
          some (if pyStrip (pySlice s cur (findBestEndPoint cfg tok s cur sp)) = [] then rest
                else pyStrip (pySlice s cur (findBestEndPoint cfg tok s cur sp)) :: rest) := rfl

theorem c1_loop_stuck :
    ∀ n, createChunksAux defaultConfig simpleTok abText [0, 2] n 0 = none := by
  intro n
  induction n with
  | zero => rfl
  | succ n ih =>
    rw [createChunksAux_succ, if_neg (by decide)]
    have h2 : nextStart defaultConfig abText 0
        (findBestEndPoint defaultConfig simpleTok abText 0 [0, 2]) = 0 := by decide
    rw [h2, ih]

/-- Claim C1 (code bug): on the input `"ab"` with the default
configuration, the smart-overlap path computes `next_start = 0 = start`
(`_find_good_boundary` finds no boundary in the overlap window and returns
its `start` argument), so the `_create_chunks` loop makes no progress and
`chunk_text` never returns, for any amount of fuel — contradicting the
claimed strict forward progress. -/
theorem C1_no_forward_progress :
    nextStart defaultConfig abText 0
        (findBestEndPoint defaultConfig simpleTok abText 0 (findSplitPoints abText)) = 0 ∧
    ∀ fuel, smartChunkText defaultConfig simpleTok cidZero fuel abText none = none := by
  constructor
  · decide
  · intro fuel
    show smartChunkText defaultConfig simpleTok cidZero fuel abText none = none
    unfold smartChunkText
    rw [if_neg (by decide)]
    have hpre : preprocess abText = abText := by decide
    have hsp : findSplitPoints abText = [0, 2] := by decide
    simp only [hpre, hsp, createChunks, c1_loop_stuck]

/-- Claim C4 (counterexample): `"ab"` with the default sizes and
`smart_overlap = False` has token count `1 ≤ max_chunk_size` and no
internal boundary match (its split points are exactly `{0, len}`), yet
`chunk_text` returns two chunks (`"ab"` and the overlap re-scan `"b"`),
not one. -/
theorem C4_counterexample :
    simpleTok (preprocess abText) ≤ cfgNoSmart.max_chunk_size ∧
    findSplitPoints (preprocess abText) = [0, 2] ∧
    (smartChunkText cfgNoSmart simpleTok cidZero 10 abText none).map List.length = some 2 := by
  decide

theorem pySlice_zero_length (t : List Char) : pySlice t 0 t.length = t := by
  simp [pySlice]

theorem pySlice_length_length (t : List Char) : pySlice t t.length t.length = [] := by
  simp [pySlice]

theorem fgbGo_nil : fgbGo ([] : List Char) boundaryMarkers = none := by decide

/-- Claim C4 (amended): with `overlap_size = 0`, a text whose preprocessed
form has no internal boundary match (split points exactly `{0, len}`) and
character length at most `max_chunk_size` yields exactly one chunk, whose
text is the whitespace-normalized, stripped text. -/
theorem C4_amended_single_chunk (cfg : Config) (tok : List Char → Nat)
    (cid : List Char → Nat → List Char) (fuel : Nat) (text : List Char)
    (hov : cfg.overlap_size = 0) (hfuel : 2 ≤ fuel)
    (hne : pyStrip text ≠ [])
    (hsp : findSplitPoints (preprocess text) = [0, (preprocess text).length])
    (hlen : (preprocess text).length ≤ cfg.max_chunk_size)
    (hchunk : pyStrip (preprocess text) ≠ []) :
    smartChunkText cfg tok cid fuel text none =
      some [mkChunkDict cid (pyStrip (preprocess text)) 0 1 none] := by
  set t := preprocess text with ht
  have htne : t ≠ [] := by
    intro h
    exact hchunk (by rw [h]; rfl)
  have h0n : 0 < t.length := List.length_pos.2 htne
  have hfil : [0, t.length].filter (fun p => 0 < p) = [t.length] := by
    simp [List.filter, h0n]
  have hbe : findBestEndPoint cfg tok t 0 [0, t.length] = t.length := by
    unfold findBestEndPoint
    rw [hfil]
    show (match sortDesc (collectCandidates cfg tok t 0 [t.length]) with
          | [] => min t.length (0 + cfg.max_chunk_size)
          | best :: _ => best.1) = t.length
    rcases em (cfg.min_chunk_size ≤ tok (pySlice t 0 t.length)) with hmin | hmin
    · have hc : ∃ tc q, collectCandidates cfg tok t 0 [t.length] = [(t.length, tc, q)] := by
        unfold collectCandidates
        rw [if_pos hmin]
        split
        · exact ⟨_, _, rfl⟩
        · exact ⟨_, _, rfl⟩
      obtain ⟨tc, q, hc⟩ := hc
      rw [hc]
      rfl
    · have hc : collectCandidates cfg tok t 0 [t.length] = [] := by
        unfold collectCandidates
        rw [if_neg hmin]
        rfl
      rw [hc]
      show min t.length (0 + cfg.max_chunk_size) = t.length
      rw [Nat.zero_add]
      exact Nat.min_eq_left hlen
  have hns : nextStart cfg t 0 t.length = t.length := by
    unfold nextStart
    rcases em cfg.smart_overlap with hsm | hsm
    · rw [if_pos hsm, hov]
      have hmax : max 0 (t.length - 0) = t.length := by omega
      rw [hmax]
      unfold findGoodBoundary
      rw [pySlice_length_length, fgbGo_nil]
      rfl
    · rw [if_neg hsm, hov]
      omega
  obtain ⟨f, rfl⟩ : ∃ f, fuel = f + 2 := ⟨fuel - 2, by omega⟩
  have hcc : createChunksAux cfg tok t [0, t.length] (f + 2) 0 = some [pyStrip t] := by
    rw [createChunksAux_succ, if_neg (by omega), hbe, hns, createChunksAux_succ,
        if_pos le_rfl, pySlice_zero_length]
    simp [hchunk]
  show smartChunkText cfg tok cid (f + 2) text none = _
  unfold smartChunkText
  rw [if_neg hne]
  simp only [← ht, hsp, createChunks, hcc]
  rfl

theorem C4_amended_single_chunk_witness :
    smartChunkText cfgZeroOverlap simpleTok cidZero 10 abText none =
      some [mkChunkDict cidZero (pyStrip (preprocess abText)) 0 1 none] :=
  C4_amended_single_chunk cfgZeroOverlap simpleTok cidZero 10 abText
    (by decide) (by decide) (by decide) (by decide) (by decide) (by decide)

/-- Claim C3 (counterexample): with the spec's hierarchical configuration
(`target=100, levels=3, multiplier=2.5`), the shared configuration
observed during `HierarchicalChunker.chunk_text` is not constant: the
level-1 pass writes `target_chunk_size = 250, max_chunk_size = 2560` into
the shared state before restoring it, so the execution does mutate the
shared configuration fields. -/
theorem C3_counterexample :
    ((hierTrace h100).all (fun s => s == h100.cfg)) = false := by
  have h1 : scaledSize 100 (5 / 2) 1 = 250 := by norm_num [scaledSize]; rfl
  have hne : stateDuring h100.cfg (5 / 2) 1 ≠ h100.cfg := by
    intro hEq
    have h2 := congrArg Config.target_chunk_size hEq
    simp only [stateDuring, h100, defaultConfig] at h2
    rw [h1] at h2
    exact absurd h2 (by norm_num)
  have hmem : stateDuring h100.cfg (5 / 2) 1 ∈ hierTrace h100 := by
    show stateDuring h100.cfg (5 / 2) 1 ∈
      [stateDuring h100.cfg h100.level_size_multiplier 0, h100.cfg,
       stateDuring h100.cfg h100.level_size_multiplier 1, h100.cfg,
       stateDuring h100.cfg h100.level_size_multiplier 2, h100.cfg]
    right; right; left
  rw [List.all_eq_false]
  exact ⟨_, hmem, by simp [hne]⟩

theorem hierStep_fst (h : HChunker) (tok : List Char → Nat)
    (cid : List Char → Nat → List Char) (fuel : Nat) (text : List Char)
    (md : Option PyDict) (c : Config) (level : Nat) :
    (hierStep h tok cid fuel text md c level).1 = c := rfl

theorem hierAux_fst (h : HChunker) (tok : List Char → Nat)
    (cid : List Char → Nat → List Char) (fuel : Nat) (text : List Char)
    (md : Option PyDict) :
    ∀ lvls c, (hierAux h tok cid fuel text md lvls c).1 = c := by
  intro lvls
  induction lvls with
  | nil => intro c; rfl
  | cons lvl rest ih =>
    intro c
    unfold hierAux
    rcases hr : hierStep h tok cid fuel text md c lvl with ⟨c', r⟩
    have hc' : c' = c := by rw [← hierStep_fst h tok cid fuel text md c lvl, hr]
    subst hc'
    cases r with
    | none => rfl
    | some cs =>
      show (match hierAux h tok cid fuel text md rest c' with
            | (c'', none) => (c'', none)
            | (c'', some acc) => (c'', some (cs ++ acc))).1 = c'
      rcases ha : hierAux h tok cid fuel text md rest c' with ⟨c'', r2⟩
      have hc'' : c'' = c' := by rw [← ih c', ha]
      cases r2 <;> simpa using hc''

/-- Claim C3 (amended): each level's pass temporarily writes the scaled
sizes into the shared configuration, but restores the original values, so
the configuration left behind by `HierarchicalChunker.chunk_text` equals
the one it started from. -/
theorem C3_amended_config_restored (h : HChunker) (tok : List Char → Nat)
    (cid : List Char → Nat → List Char) (fuel : Nat) (text : List Char)
    (md : Option PyDict) :
    (hierChunkText h tok cid fuel text md).1 = h.cfg :=
  hierAux_fst h tok cid fuel text md (List.range h.levels) h.cfg

theorem enumFrom_length (n : Nat) (l : List α) : (enumFrom n l).length = l.length := by
  induction l generalizing n with
  | nil => rfl
  | cons x xs ih => simp [enumFrom, ih]

theorem enumFrom_get (n : Nat) (l : List α) :
    ∀ (i : Nat) (h1 : i < (enumFrom n l).length) (h2 : i < l.length),
      (enumFrom n l).get ⟨i, h1⟩ = (n + i, l.get ⟨i, h2⟩) := by
  induction l generalizing n with
  | nil => intro i h1 h2; simp at h2
  | cons x xs ih =>
    intro i h1 h2
    cases i with
    | zero => simp [enumFrom]
    | succ j =>
      have h1' : j < (enumFrom (n + 1) xs).length := by
        simpa [enumFrom] using h1
      have h2' : j < xs.length := by simpa using h2
      show (enumFrom (n + 1) xs).get ⟨j, h1'⟩ = (n + (j + 1), (x :: xs).get ⟨j + 1, h2⟩)
      rw [ih (n + 1) j h1' h2']
      simp [Nat.add_assoc, Nat.add_comm 1 j]

theorem pyGet_mkChunkDict_index (cid : List Char → Nat → List Char)
    (c : List Char) (i total : Nat) :
    pyGet (mkChunkDict cid c i total none) kChunkIndex = some (JValue.num i) := rfl

theorem pyGet_mkChunkDict_total (cid : List Char → Nat → List Char)
    (c : List Char) (i total : Nat) :
    pyGet (mkChunkDict cid c i total none) kTotalChunks = some (JValue.num total) := rfl

/-- Claim C8: in one `SmartChunker.chunk_text` pass (no caller metadata),
the returned chunks carry `chunk_index` values `0..N-1` in output order and
every chunk has `total_chunks = N`, where `N` is the number of chunks
returned. -/
theorem C8_chunk_indices (cfg : Config) (tok : List Char → Nat)
    (cid : List Char → Nat → List Char) (fuel : Nat) (text : List Char)
    (cs : List PyDict) (h : smartChunkText cfg tok cid fuel text none = some cs) :
    ∀ (i : Nat) (hi : i < cs.length),
      pyGet (cs.get ⟨i, hi⟩) kChunkIndex = some (JValue.num i) ∧
      pyGet (cs.get ⟨i, hi⟩) kTotalChunks = some (JValue.num cs.length) := by
  unfold smartChunkText at h
  by_cases hstrip : pyStrip text = []
  · rw [if_pos hstrip] at h
    injection h with h'
    intro i hi
    rw [← h'] at hi
    simp at hi
  · rw [if_neg hstrip] at h
    change (match createChunks cfg tok (preprocess text) (findSplitPoints (preprocess text)) fuel with
            | none => none
            | some chunks =>
              some (List.map (fun ic => mkChunkDict cid ic.2 ic.1 chunks.length none)
                (enumFrom 0 chunks))) = some cs at h
    rcases hcc : createChunks cfg tok (preprocess text) (findSplitPoints (preprocess text)) fuel
      with _ | chunks
    · rw [hcc] at h
      exact absurd h (by simp)
    · rw [hcc] at h
      injection h with h'
      subst h'
      intro i hi
      have hi1 : i < (enumFrom 0 chunks).length := by
        simpa using hi
      have hi2 : i < chunks.length := by
        rw [← enumFrom_length 0 chunks]
        exact hi1
      have hgete := enumFrom_get 0 chunks i hi1 hi2
      rw [List.get_eq_getElem] at hgete
      have hget : (List.map
            (fun ic : Nat × List Char => mkChunkDict cid ic.2 ic.1 chunks.length none)
            (enumFrom 0 chunks)).get ⟨i, hi⟩ =
          mkChunkDict cid (chunks.get ⟨i, hi2⟩) i chunks.length none := by
        rw [List.get_eq_getElem, List.getElem_map, hgete]
        simp
      rw [hget]
      have hlen : (List.map
            (fun ic : Nat × List Char => mkChunkDict cid ic.2 ic.1 chunks.length none)
            (enumFrom 0 chunks)).length = chunks.length := by
        rw [List.length_map, enumFrom_length]
      rw [hlen]
      exact ⟨pyGet_mkChunkDict_index cid _ i chunks.length,
             pyGet_mkChunkDict_total cid _ i chunks.length⟩

def csWitness : List PyDict := [mkChunkDict cidZero (pyStrip (preprocess abText)) 0 1 none]

theorem C8_chunk_indices_witness :
    pyGet (csWitness.get ⟨0, by decide⟩) kChunkIndex = some (JValue.num 0) ∧
    pyGet (csWitness.get ⟨0, by decide⟩) kTotalChunks = some (JValue.num csWitness.length) :=
  C8_chunk_indices cfgZeroOverlap simpleTok cidZero 10 abText csWitness rfl 0 (by decide)

/-- Claim C10: `_calculate_boundary_score` returns exactly `1.0` at every
position `≤ 0` or `≥ len(text)`; in particular the candidate end offset
`len(text)` always receives a perfect boundary score, never the `0.1`
no-boundary fallback, regardless of the surrounding characters. -/
theorem C10_document_boundary_score (s : List Char) (position : Int)
    (h : position ≤ 0 ∨ (s.length : Int) ≤ position) :
    calcBoundaryScore s position = 1 ∧ calcBoundaryScore s (s.length : Int) = 1 := by
  constructor
  · unfold calcBoundaryScore
    rw [if_pos h]
  · unfold calcBoundaryScore
    rw [if_pos (Or.inr le_rfl)]

theorem C10_document_boundary_score_witness :
    calcBoundaryScore abText (-1) = 1 ∧ calcBoundaryScore abText 2 = 1 :=
  ⟨(C10_document_boundary_score abText (-1) (Or.inl (by norm_num))).1,
   (C10_document_boundary_score abText 2 (Or.inr (by decide))).1⟩

def kDescription : List Char := "description".toList
def kEffects : List Char := "effects".toList
def fireText : List Char := "Fire damage.".toList
def burnsText : List Char := "Burns target.".toList
def e1Text : List Char := "e1".toList

/-- The object element `{"id": "e1", "description": "Burns target."}`. -/
def itemC2 : PyDict := [(kId, JValue.str e1Text), (kDescription, JValue.str burnsText)]

/-- The document whose `effects` array is
`["Fire damage.", {"id": "e1", "description": "Burns target."}]`. -/
def docC2 : PyDict := [(kEffects, JValue.arr [JValue.str fireText, JValue.obj itemC2])]

/-- The metadata attached to the single chunked value of `docC2`. -/
def metaC2 : PyDict :=
  [(kDocId, unknownStr), (kDocType, unknownStr),
   (kFieldPath, JValue.str ("effects[1].description".toList)),
   (kArrayIndex, JValue.num 1), (kItemId, JValue.str e1Text)]

/-- Claim C2 (code bug): on the spec's concrete scenario, for every
injected text chunker `tc`, `chunk_structured_document` produces only the
chunks of the object element's `description` (metadata `array_index = 1`,
`item_id = "e1"`); the bare string element `"Fire damage."` is never
chunked and no chunk with `array_index = 0` exists, because the
`isinstance(item, str)` branch sits under `if isinstance(item, dict)` and
is unreachable. -/
theorem C2_bare_string_skipped (tc : TextChunker) :
    chunkStructuredDocument tc docC2 [kDescription] [] [kEffects] =
      Except.ok (tc (JValue.str burnsText) metaC2) ∧
    pyGet metaC2 kArrayIndex = some (JValue.num 1) ∧
    pyGet metaC2 kItemId = some (JValue.str e1Text) := by
  refine ⟨?_, rfl, rfl⟩
  have hred : chunkStructuredDocument tc docC2 [kDescription] [] [kEffects] =
      Except.ok (((tc (JValue.str burnsText) metaC2 ++ []) ++ []) ++ []) := rfl
  rw [hred, List.append_nil, List.append_nil, List.append_nil]

theorem nestedAllChunks_skip (tc : TextChunker) (doc : PyDict) (p : List Char)
    (n2 : List (List Char)) (h : getNestedValue (JValue.obj doc) p = Except.ok none) :
    nestedAllChunks tc doc (p :: n2) = nestedAllChunks tc doc n2 := by
  have hnf : nestedFieldChunks tc doc p = Except.ok [] := by
    unfold nestedFieldChunks
    rw [h]
  show (match nestedFieldChunks tc doc p with
        | Except.error e => Except.error e
        | Except.ok cs =>
          match nestedAllChunks tc doc n2 with
          | Except.error e => Except.error e
          | Except.ok rest => Except.ok (cs ++ rest)) = nestedAllChunks tc doc n2
  rw [hnf]
  cases nestedAllChunks tc doc n2 <;> rfl

theorem nestedAllChunks_mid (tc : TextChunker) (doc : PyDict) (p : List Char)
    (h : getNestedValue (JValue.obj doc) p = Except.ok none) :
    ∀ (n1 n2 : List (List Char)),
      nestedAllChunks tc doc (n1 ++ p :: n2) = nestedAllChunks tc doc (n1 ++ n2) := by
  intro n1 n2
  induction n1 with
  | nil => exact nestedAllChunks_skip tc doc p n2 h
  | cons q n1 ih =>
    simp only [List.cons_append, nestedAllChunks, List.append_eq]
    simp only [ih]

def docC7 : PyDict := [("items".toList, JValue.arr [JValue.str ("x".toList)])]

def pathMissing : List Char := "nope".toList
def pathOutOfRange : List Char := "items[5]".toList
def pathNonNumeric : List Char := "items[x]".toList

/-- A concrete injected text chunker used only to witness the C7 theorem. -/
def tcConst : TextChunker := fun _ _ => []

/-- Claim C7: a nested path whose resolution fails yields no chunks for
that path and raises no error, and the chunks of the remaining requested
paths are unchanged; the three failure modes of the claim (missing key,
out-of-range index, non-numeric index) are all of this resolution-failure
kind (`Except.ok none`, i.e. Python `None` with no exception). -/
theorem C7_failed_path_is_skipped (tc : TextChunker) (doc : PyDict)
    (tf n1 n2 af : List (List Char)) (p : List Char)
    (h : getNestedValue (JValue.obj doc) p = Except.ok none) :
    nestedFieldChunks tc doc p = Except.ok [] ∧
    chunkStructuredDocument tc doc tf (n1 ++ p :: n2) af =
      chunkStructuredDocument tc doc tf (n1 ++ n2) af ∧
    getNestedValue (JValue.obj docC7) pathMissing = Except.ok none ∧
    getNestedValue (JValue.obj docC7) pathOutOfRange = Except.ok none ∧
    getNestedValue (JValue.obj docC7) pathNonNumeric = Except.ok none := by
  refine ⟨?_, ?_, rfl, rfl, rfl⟩
  · unfold nestedFieldChunks
    rw [h]
  · unfold chunkStructuredDocument
    rw [nestedAllChunks_mid tc doc p h n1 n2]

theorem C7_failed_path_is_skipped_witness :
    nestedFieldChunks tcConst docC7 pathMissing = Except.ok [] ∧
    chunkStructuredDocument tcConst docC7 [] ([] ++ pathMissing :: [pathOutOfRange]) [] =
      chunkStructuredDocument tcConst docC7 [] ([] ++ [pathOutOfRange]) [] ∧
    getNestedValue (JValue.obj docC7) pathMissing = Except.ok none ∧
    getNestedValue (JValue.obj docC7) pathOutOfRange = Except.ok none ∧
    getNestedValue (JValue.obj docC7) pathNonNumeric = Except.ok none :=
  C7_failed_path_is_skipped tcConst docC7 [] [] [pathOutOfRange] [] pathMissing rfl

theorem pyGet_setKey_self (d : PyDict) (k : List Char) (v : JValue) :
    pyGet (setKey d k v) k = some v := by
  induction d with
  | nil => simp [setKey, pyGet]
  | cons kv rest ih =>
    by_cases hk : kv.1 = k
    · simp [setKey, hk, pyGet]
    · simp [setKey, hk, pyGet, ih]

theorem pyGet_setKey_other (d : PyDict) (k k' : List Char) (v : JValue)
    (h : k ≠ k') : pyGet (setKey d k v) k' = pyGet d k' := by
  induction d with
  | nil => simp [setKey, pyGet, h]
  | cons kv rest ih =>
    by_cases hk : kv.1 = k
    · simp [setKey, hk, pyGet, h]
    · simp [setKey, hk, pyGet, ih]

theorem pyGet_mkChunkDict_summary (cid : List Char → Nat → List Char)
    (c : List Char) (i total : Nat) :
    pyGet (mkChunkDict cid c i total none) kIsSummary = none := rfl

theorem pyGet_tagChunk_level (level : Nat) (d : PyDict) :
    pyGet (tagChunk level d) kLevel = some (JValue.num level) := by
  unfold tagChunk
  by_cases hl : 0 < level
  · rw [if_pos hl, pyGet_setKey_other _ _ _ _ (by decide),
        pyGet_setKey_other _ _ _ _ (by decide), pyGet_setKey_self]
  · rw [if_neg hl, pyGet_setKey_other _ _ _ _ (by decide), pyGet_setKey_self]

theorem pyGet_tagChunk_hier (level : Nat) (d : PyDict) :
    pyGet (tagChunk level d) kIsHierarchical = some (JValue.bool true) := by
  unfold tagChunk
  by_cases hl : 0 < level
  · rw [if_pos hl, pyGet_setKey_other _ _ _ _ (by decide), pyGet_setKey_self]
  · rw [if_neg hl, pyGet_setKey_self]

theorem pyGet_tagChunk_summary_pos (level : Nat) (d : PyDict) (hl : 0 < level) :
    pyGet (tagChunk level d) kIsSummary = some (JValue.bool true) := by
  unfold tagChunk
  rw [if_pos hl, pyGet_setKey_self]

theorem pyGet_tagChunk_summary_zero (d : PyDict) :
    pyGet (tagChunk 0 d) kIsSummary = pyGet d kIsSummary := by
  unfold tagChunk
  rw [if_neg (by decide), pyGet_setKey_other _ _ _ _ (by decide),
      pyGet_setKey_other _ _ _ _ (by decide)]

theorem smartChunkText_mem_shape (cfg : Config) (tok : List Char → Nat)
    (cid : List Char → Nat → List Char) (fuel : Nat) (text : List Char)
    (cs : List PyDict) (b : PyDict)
    (h : smartChunkText cfg tok cid fuel text none = some cs) (hmem : b ∈ cs) :
    ∃ c i total, b = mkChunkDict cid c i total none := by
  unfold smartChunkText at h
  by_cases hstrip : pyStrip text = []
  · rw [if_pos hstrip] at h
    injection h with h'
    rw [← h'] at hmem
    simp at hmem
  · rw [if_neg hstrip] at h
    change (match createChunks cfg tok (preprocess text) (findSplitPoints (preprocess text)) fuel with
            | none => none
            | some chunks =>
              some (List.map (fun ic => mkChunkDict cid ic.2 ic.1 chunks.length none)
                (enumFrom 0 chunks))) = some cs at h
    rcases hcc : createChunks cfg tok (preprocess text) (findSplitPoints (preprocess text)) fuel
      with _ | chunks
    · rw [hcc] at h
      exact absurd h (by simp)
    · rw [hcc] at h
      injection h with h'
      rw [← h'] at hmem
      rcases List.mem_map.1 hmem with ⟨ic, _, hic⟩
      exact ⟨ic.2, ic.1, chunks.length, hic.symm⟩

theorem hierStep_at_cfg (h : HChunker) (tok : List Char → Nat)
    (cid : List Char → Nat → List Char) (fuel : Nat) (text : List Char)
    (md : Option PyDict) (level : Nat) :
    hierStep h tok cid fuel text md h.cfg level =
      (h.cfg, levelChunks h tok cid fuel text md level) := rfl

theorem hierAux_spec (h : HChunker) (tok : List Char → Nat)
    (cid : List Char → Nat → List Char) (fuel : Nat) (text : List Char)
    (md : Option PyDict) :
    ∀ lvls, (hierAux h tok cid fuel text md lvls h.cfg).2 =
      lvls.foldr
        (fun level acc =>
          match levelChunks h tok cid fuel text md level, acc with
          | some cs, some rest => some (cs ++ rest)
          | _, _ => none)
        (some []) := by
  intro lvls
  induction lvls with
  | nil => rfl
  | cons lvl rest ih =>
    show (match hierStep h tok cid fuel text md h.cfg lvl with
          | (c', none) => (c', none)
          | (c', some cs) =>
            match hierAux h tok cid fuel text md rest c' with
            | (c'', none) => (c'', none)
            | (c'', some acc) => (c'', some (cs ++ acc))).2 = _
    rw [hierStep_at_cfg]
    rcases hlc : levelChunks h tok cid fuel text md lvl with _ | cs
    · rw [List.foldr_cons, hlc]
    · rcases hrec : hierAux h tok cid fuel text md rest h.cfg with ⟨c'', r2⟩
      rw [hrec] at ih
      rw [List.foldr_cons, hlc, ← ih]
      show (match hierAux h tok cid fuel text md rest h.cfg with
            | (c'', none) => (c'', none)
            | (c'', some acc) => (c'', some (cs ++ acc))).2 = _
      rw [hrec]
      cases r2 <;> rfl

/-- Claim C9: `HierarchicalChunker.chunk_text` equals the concatenation of
one full-text pass per level `0..levels-1`, each at the
`multiplier^level`-scaled target and max sizes; every chunk is tagged with
its `level` and `is_hierarchical = true`, and `is_summary = true` is set
exactly on chunks of levels `> 0`; with `target = 100, multiplier = 2.5`
the effective targets are `100, 250, 625`. -/
theorem C9_hierarchical_levels (h : HChunker) (tok : List Char → Nat)
    (cid : List Char → Nat → List Char) (fuel : Nat) (text : List Char) :
    (∀ md, (hierChunkText h tok cid fuel text md).2 =
      specHierChunks h tok cid fuel text md) ∧
    (∀ level cs' d, levelChunks h tok cid fuel text none level = some cs' → d ∈ cs' →
      pyGet d kLevel = some (JValue.num level) ∧
      pyGet d kIsHierarchical = some (JValue.bool true) ∧
      (0 < level → pyGet d kIsSummary = some (JValue.bool true)) ∧
      (level = 0 → pyGet d kIsSummary = none)) ∧
    scaledSize 100 (5 / 2) 0 = 100 ∧ scaledSize 100 (5 / 2) 1 = 250 ∧
    scaledSize 100 (5 / 2) 2 = 625 := by
  refine ⟨?_, ?_, by norm_num [scaledSize]; rfl, by norm_num [scaledSize]; rfl,
          by norm_num [scaledSize]; rfl⟩
  · intro md
    exact hierAux_spec h tok cid fuel text md (List.range h.levels)
  · intro level cs' d hlc hmem
    unfold levelChunks at hlc
    rcases hsct : smartChunkText (stateDuring h.cfg h.level_size_multiplier level)
        tok cid fuel text none with _ | base
    · rw [hsct] at hlc
      exact absurd hlc (by simp)
    · rw [hsct] at hlc
      injection hlc with hlc'
      rw [← hlc'] at hmem
      rcases List.mem_map.1 hmem with ⟨b, hbmem, hb⟩
      rcases smartChunkText_mem_shape _ _ _ _ _ _ _ hsct hbmem with ⟨c, i, total, hshape⟩
      subst hb
      refine ⟨pyGet_tagChunk_level level b, pyGet_tagChunk_hier level b,
        fun hl => pyGet_tagChunk_summary_pos level b hl, fun hl => ?_⟩
      subst hl
      rw [pyGet_tagChunk_summary_zero, hshape, pyGet_mkChunkDict_summary]

theorem scaledSize_zero (size : Nat) (m : ℚ) : scaledSize size m 0 = size := by
  simp [scaledSize]

theorem stateDuring_zero (c : Config) (m : ℚ) : stateDuring c m 0 = c := by
  unfold stateDuring
  rw [scaledSize_zero, scaledSize_zero]

/-- The hierarchical chunker used to witness C9 (overlap 0 so the level
pass terminates on the witness text). -/
def hZW : HChunker :=
  { cfg := { defaultConfig with target_chunk_size := 100, overlap_size := 0 },
    levels := 3, level_size_multiplier := 5 / 2 }

def chunkW9 : PyDict := tagChunk 0 (mkChunkDict cidZero (pyStrip (preprocess abText)) 0 1 none)

theorem C9_hierarchical_levels_witness :
    pyGet chunkW9 kLevel = some (JValue.num 0) ∧
    pyGet chunkW9 kIsHierarchical = some (JValue.bool true) ∧
    pyGet chunkW9 kIsSummary = none := by
  have hlc : levelChunks hZW simpleTok cidZero 10 abText none 0 = some [chunkW9] := by
    unfold levelChunks
    rw [stateDuring_zero]
    rfl
  have hc := (C9_hierarchical_levels hZW simpleTok cidZero 10 abText).2.1 0 [chunkW9]
    chunkW9 hlc (List.mem_singleton.2 rfl)
  exact ⟨hc.1, hc.2.1, hc.2.2.2 rfl⟩

/-- Spec-side size score: `1 - |token_count - target| / target`, not
clamped to `[0, 1]`. -/
def specSizeScore (target tc : Nat) : ℚ :=
  1 - |(tc : ℚ) - (target : ℚ)| / (target : ℚ)

/-- Spec-side boundary rank: the first catalogue pattern (in order) with a
match within the window around `position`. -/
def patternRank (s : List Char) (position : Int) : Option Nat :=
  boundaryMarkers.findIdx? (qualifies s position)

/-- Spec-side boundary score: `1 - rank/pattern_count` when some pattern
matches near the position, else the `0.1` fallback. -/
def specBoundaryScore (s : List Char) (position : Int) : ℚ :=
  match patternRank s position with
  | some r => 1 - (r : ℚ) / (boundaryMarkers.length : ℚ)
  | none => 1 / 10

theorem bsGo_spec (s : List Char) (position : Int) :
    ∀ (ps : List Pat) (i : Nat),
      bsGo s position ps i =
        match List.findIdx? (qualifies s position) ps i with
        | some r => 1 - (r : ℚ) / (boundaryMarkers.length : ℚ)
        | none => 1 / 10 := by
  intro ps
  induction ps with
  | nil => intro i; rfl
  | cons p ps ih =>
    intro i
    rw [List.findIdx?_cons]
    by_cases hq : qualifies s position p
    · simp only [bsGo, hq, if_pos]
    · simp only [bsGo, hq, Bool.false_eq_true, if_false, ih (i + 1)]

/-- Claim C5: for each candidate end with token count at least
`min_chunk_size`, the score is
`0.7 * (1 - |tc - target|/target) + 0.3 * boundary_score`, with the size
part unclamped (it can go negative), and for interior positions the
boundary part is `1 - rank/pattern_count` when a catalogue pattern matches
within the small (distance `< 3`) window around the end, else `0.1`. -/
theorem C5_score_formula :
    (∀ (s : List Char) (position : Int), 0 < position → position < (s.length : Int) →
      calcBoundaryScore s position = specBoundaryScore s position) ∧
    (∀ (cfg : Config) (tok : List Char → Nat) (s : List Char) (start : Nat)
        (ends : List Nat) (c : Nat × Nat × ℚ), c ∈ collectCandidates cfg tok s start ends →
      c.2.1 = tok (pySlice s start c.1) ∧ cfg.min_chunk_size ≤ c.2.1 ∧
      c.2.2 = specSizeScore cfg.target_chunk_size c.2.1 * (7 / 10) +
        calcBoundaryScore s (c.1 : Int) * (3 / 10)) ∧
    specSizeScore 512 2000 < 0 := by
  refine ⟨?_, ?_, ?_⟩
  · intro s position h0 hlen
    unfold calcBoundaryScore
    rw [if_neg (by omega)]
    exact bsGo_spec s position boundaryMarkers 0
  · intro cfg tok s start ends
    induction ends with
    | nil => intro c hc; simp [collectCandidates] at hc
    | cons e rest ih =>
      intro c hc
      unfold collectCandidates at hc
      by_cases hmin : cfg.min_chunk_size ≤ tok (pySlice s start e)
      · rw [if_pos hmin] at hc
        by_cases hmax : cfg.max_chunk_size ≤ tok (pySlice s start e)
        · rw [if_pos hmax] at hc
          rcases List.mem_singleton.1 hc with rfl
          exact ⟨rfl, hmin, rfl⟩
        · rw [if_neg hmax] at hc
          rcases List.mem_cons.1 hc with rfl | hc'
          · exact ⟨rfl, hmin, rfl⟩
          · exact ih c hc'
      · rw [if_neg hmin] at hc
        exact ih c hc
  · unfold specSizeScore
    push_cast
    rw [show (2000 : ℚ) - 512 = 1488 by norm_num,
        show |(1488 : ℚ)| = 1488 from abs_of_nonneg (by norm_num)]
    norm_num

/-- A tiny configuration under which `"ab"` itself is a candidate. -/
def cfgTiny : Config :=
  { target_chunk_size := 1, min_chunk_size := 1, max_chunk_size := 10,
    overlap_size := 0, smart_overlap := false }

def candW : Nat × Nat × ℚ :=
  (2, simpleTok (pySlice abText 0 2),
   specSizeScore 1 (simpleTok (pySlice abText 0 2)) * (7 / 10) +
     calcBoundaryScore abText (2 : Int) * (3 / 10))

theorem candW_mem : candW ∈ collectCandidates cfgTiny simpleTok abText 0 [2] := by
  have hc : collectCandidates cfgTiny simpleTok abText 0 [2] = [candW] := by
    unfold collectCandidates candW specSizeScore
    rw [if_pos (by decide), if_neg (by decide)]
    rfl
  rw [hc]
  exact List.mem_singleton.2 rfl

theorem C5_score_formula_witness :
    calcBoundaryScore abText 1 = specBoundaryScore abText 1 ∧
    (candW.2.1 = simpleTok (pySlice abText 0 candW.1) ∧
      cfgTiny.min_chunk_size ≤ candW.2.1 ∧
      candW.2.2 = specSizeScore cfgTiny.target_chunk_size candW.2.1 * (7 / 10) +
        calcBoundaryScore abText (candW.1 : Int) * (3 / 10)) ∧
    specSizeScore 512 2000 < 0 :=
  ⟨C5_score_formula.1 abText 1 (by decide) (by decide),
   C5_score_formula.2.1 cfgTiny simpleTok abText 0 [2] candW candW_mem,
   C5_score_formula.2.2⟩

/-- Take elements up to and including the first one satisfying `p`. -/
def takeThrough (p : α → Bool) : List α → List α
  | [] => []
  | x :: xs => if p x then [x] else x :: takeThrough p xs

/-- Spec-side candidate list of `_find_best_end_point`: the valid end
points with token count ≥ `min_chunk_size`, in increasing offset order,
cut immediately after the first one whose token count reaches
`max_chunk_size`, each scored by the C5 formula. -/
def specCandidates (cfg : Config) (tok : List Char → Nat) (s : List Char)
    (start : Nat) (ends : List Nat) : List (Nat × Nat × ℚ) :=
  (takeThrough (fun e => cfg.max_chunk_size ≤ tok (pySlice s start e))
      (ends.filter (fun e => cfg.min_chunk_size ≤ tok (pySlice s start e)))).map
    (fun e => (e, tok (pySlice s start e),
      specSizeScore cfg.target_chunk_size (tok (pySlice s start e)) * (7 / 10) +
        calcBoundaryScore s (e : Int) * (3 / 10)))

theorem takeThrough_cons_pos (p : α → Bool) (x : α) (xs : List α) (h : p x = true) :
    takeThrough p (x :: xs) = [x] := by
  simp [takeThrough, h]

theorem takeThrough_cons_neg (p : α → Bool) (x : α) (xs : List α) (h : p x = false) :
    takeThrough p (x :: xs) = x :: takeThrough p xs := by
  simp [takeThrough, h]

theorem collectCandidates_eq_spec (cfg : Config) (tok : List Char → Nat)
    (s : List Char) (start : Nat) :
    ∀ ends, collectCandidates cfg tok s start ends = specCandidates cfg tok s start ends := by
  intro ends
  induction ends with
  | nil => rfl
  | cons e rest ih =>
    by_cases hmin : cfg.min_chunk_size ≤ tok (pySlice s start e)
    · by_cases hmax : cfg.max_chunk_size ≤ tok (pySlice s start e)
      · unfold collectCandidates
        rw [if_pos hmin, if_pos hmax]
        unfold specCandidates
        rw [List.filter_cons, if_pos (by simpa using hmin),
            takeThrough_cons_pos _ _ _ (by simpa using hmax)]
        rfl
      · unfold collectCandidates
        rw [if_pos hmin, if_neg hmax]
        unfold specCandidates
        rw [List.filter_cons, if_pos (by simpa using hmin),
            takeThrough_cons_neg _ _ _ (by simpa using hmax), List.map_cons, ih]
        rfl
    · unfold collectCandidates
      rw [if_neg hmin]
      unfold specCandidates
      rw [List.filter_cons, if_neg (by simpa using hmin), ih]
      rfl

theorem takeThrough_sublist (p : α → Bool) : ∀ l : List α, List.Sublist (takeThrough p l) l := by
  intro l
  induction l with
  | nil => exact List.Sublist.refl []
  | cons x xs ih =>
    by_cases hp : p x
    · rw [takeThrough_cons_pos p x xs hp]
      exact (List.nil_sublist xs).cons₂ x
    · rw [takeThrough_cons_neg p x xs (by simp [hp])]
      exact ih.cons₂ x

/-- The first maximum of `x :: ys` under the score component (kept element
changes only when a strictly larger score appears later). -/
def fmGo (x : Nat × Nat × ℚ) : List (Nat × Nat × ℚ) → Nat × Nat × ℚ
  | [] => x
  | y :: ys => if x.2.2 < y.2.2 then fmGo y ys else fmGo x ys

theorem fmGo_le : ∀ (ys : List (Nat × Nat × ℚ)) (x : Nat × Nat × ℚ),
    ∀ c ∈ x :: ys, c.2.2 ≤ (fmGo x ys).2.2 := by
  intro ys
  induction ys with
  | nil =>
    intro x c hc
    rcases List.mem_singleton.1 hc with rfl
    exact le_refl _
  | cons y ys ih =>
    intro x c hc
    show c.2.2 ≤ (fmGo x (y :: ys)).2.2
    unfold fmGo
    by_cases hxy : x.2.2 < y.2.2
    · rw [if_pos hxy]
      rcases List.mem_cons.1 hc with rfl | hc'
      · exact le_trans (le_of_lt hxy) (ih y y (List.mem_cons_self y ys))
      · exact ih y c hc'
    · rw [if_neg hxy]
      rcases List.mem_cons.1 hc with rfl | hc'
      · exact ih c c (List.mem_cons_self c ys)
      · rcases List.mem_cons.1 hc' with rfl | hc''
        · exact le_trans (le_of_not_lt hxy) (ih x x (List.mem_cons_self x ys))
        · exact ih x c (List.mem_cons.2 (Or.inr hc''))

theorem fmGo_cases : ∀ (ys : List (Nat × Nat × ℚ)) (x : Nat × Nat × ℚ),
    fmGo x ys = x ∨ (fmGo x ys ∈ ys ∧ x.2.2 < (fmGo x ys).2.2) := by
  intro ys
  induction ys with
  | nil => intro x; exact Or.inl rfl
  | cons y ys ih =>
    intro x
    show fmGo x (y :: ys) = x ∨ _
    unfold fmGo
    by_cases hxy : x.2.2 < y.2.2
    · rw [if_pos hxy]
      rcases ih y with hy | ⟨hmem, hlt⟩
      · exact Or.inr ⟨by rw [hy]; exact List.mem_cons_self y ys, by rw [hy]; exact hxy⟩
      · exact Or.inr ⟨List.mem_cons.2 (Or.inr hmem), lt_trans hxy hlt⟩
    · rw [if_neg hxy]
      rcases ih x with hx | ⟨hmem, hlt⟩
      · exact Or.inl hx
      · exact Or.inr ⟨List.mem_cons.2 (Or.inr hmem), hlt⟩

theorem fmGo_shift : ∀ (ys : List (Nat × Nat × ℚ)) (x y : Nat × Nat × ℚ),
    y.2.2 ≤ x.2.2 →
    (if (fmGo y ys).2.2 ≤ x.2.2 then x else fmGo y ys) = fmGo x ys := by
  intro ys
  induction ys with
  | nil =>
    intro x y hyx
    show (if y.2.2 ≤ x.2.2 then x else y) = x
    rw [if_pos hyx]
  | cons z zs ih =>
    intro x y hyx
    show (if (fmGo y (z :: zs)).2.2 ≤ x.2.2 then x else fmGo y (z :: zs)) = fmGo x (z :: zs)
    unfold fmGo
    by_cases hyz : y.2.2 < z.2.2
    · rw [if_pos hyz]
      by_cases hxz : x.2.2 < z.2.2
      · rw [if_pos hxz]
        have hz : z.2.2 ≤ (fmGo z zs).2.2 := fmGo_le zs z z (List.mem_cons_self z zs)
        rw [if_neg (not_le.2 (lt_of_lt_of_le hxz hz))]
      · rw [if_neg hxz]
        exact ih x z (le_of_not_lt hxz)
    · rw [if_neg hyz]
      have hxz : ¬ x.2.2 < z.2.2 := fun hc =>
        hyz (lt_of_le_of_lt hyx hc)
      rw [if_neg hxz]
      exact ih x y hyx

theorem insertDesc_ne_nil (x : Nat × Nat × ℚ) (l : List (Nat × Nat × ℚ)) :
    insertDesc x l ≠ [] := by
  cases l with
  | nil => simp [insertDesc]
  | cons y ys =>
    unfold insertDesc
    by_cases hle : y.2.2 ≤ x.2.2
    · rw [if_pos hle]; simp
    · rw [if_neg hle]; simp

theorem fmGo_cons (x y : Nat × Nat × ℚ) (ys : List (Nat × Nat × ℚ)) :
    fmGo x (y :: ys) = if x.2.2 < y.2.2 then fmGo y ys else fmGo x ys := rfl

theorem sortDesc_head : ∀ (ys : List (Nat × Nat × ℚ)) (x : Nat × Nat × ℚ),
    (sortDesc (x :: ys)).head? = some (fmGo x ys) := by
  intro ys
  induction ys with
  | nil => intro x; rfl
  | cons y ys ih =>
    intro x
    show (insertDesc x (sortDesc (y :: ys))).head? = some (fmGo x (y :: ys))
    rcases hs : sortDesc (y :: ys) with _ | ⟨b, t⟩
    · exact absurd hs (insertDesc_ne_nil y (sortDesc ys))
    · have hb : b = fmGo y ys := by
        have h2 := ih y
        rw [hs] at h2
        simp only [List.head?_cons, Option.some.injEq] at h2
        exact h2
      subst hb
      rw [fmGo_cons]
      unfold insertDesc
      by_cases hle : (fmGo y ys).2.2 ≤ x.2.2
      · rw [if_pos hle, List.head?_cons]
        have hyx : y.2.2 ≤ x.2.2 :=
          le_trans (fmGo_le ys y y (List.mem_cons_self y ys)) hle
        have hsh := fmGo_shift ys x y hyx
        rw [if_pos hle] at hsh
        rw [if_neg (not_lt.2 hyx), ← hsh]
      · rw [if_neg hle, List.head?_cons]
        by_cases hxy : x.2.2 < y.2.2
        · rw [if_pos hxy]
        · have hyx : y.2.2 ≤ x.2.2 := le_of_not_lt hxy
          have hsh := fmGo_shift ys x y hyx
          rw [if_neg hle] at hsh
          rw [if_neg hxy, ← hsh]

theorem fmGo_earliest : ∀ (ys : List (Nat × Nat × ℚ)) (x : Nat × Nat × ℚ),
    List.Pairwise (fun a b => a.1 < b.1) (x :: ys) →
    ∀ c ∈ x :: ys, c.2.2 = (fmGo x ys).2.2 → (fmGo x ys).1 ≤ c.1 := by
  intro ys
  induction ys with
  | nil =>
    intro x _ c hc _
    rcases List.mem_singleton.1 hc with rfl
    exact le_refl _
  | cons y ys ih =>
    intro x hp c hc hsc
    have hp1 : ∀ b ∈ y :: ys, x.1 < b.1 := (List.pairwise_cons.1 hp).1
    have hp2 : List.Pairwise (fun a b => a.1 < b.1) (y :: ys) := (List.pairwise_cons.1 hp).2
    rw [fmGo_cons] at hsc ⊢
    by_cases hxy : x.2.2 < y.2.2
    · rw [if_pos hxy] at hsc ⊢
      rcases List.mem_cons.1 hc with rfl | hc'
      · exfalso
        have : c.2.2 < (fmGo y ys).2.2 :=
          lt_of_lt_of_le hxy (fmGo_le ys y y (List.mem_cons_self y ys))
        rw [hsc] at this
        exact lt_irrefl _ this
      · exact ih y hp2 c hc' hsc
    · rw [if_neg hxy] at hsc ⊢
      have hyx : y.2.2 ≤ x.2.2 := le_of_not_lt hxy
      rcases List.mem_cons.1 hc with rfl | hc'
      · rcases fmGo_cases ys c with heq | ⟨_, hlt⟩
        · rw [heq]
        · exfalso
          rw [← hsc] at hlt
          exact lt_irrefl _ hlt
      · rcases List.mem_cons.1 hc' with rfl | hc''
        · rcases fmGo_cases ys x with heq | ⟨_, hlt⟩
          · rw [heq]
            exact le_of_lt (hp1 c (List.mem_cons_self c ys))
          · exfalso
            rw [← hsc] at hlt
            exact absurd (lt_of_le_of_lt hyx hlt) (lt_irrefl _)
        · have hpx : List.Pairwise (fun a b => a.1 < b.1) (x :: ys) := by
            refine List.pairwise_cons.2 ⟨?_, (List.pairwise_cons.1 hp2).2⟩
            intro b hb
            exact hp1 b (List.mem_cons.2 (Or.inr hb))
          exact ih x hpx c (List.mem_cons.2 (Or.inr hc'')) hsc

theorem findSplitPoints_strict_mono (s : List Char) :
    List.Pairwise (· < ·) (findSplitPoints s) := by
  unfold findSplitPoints
  have hsorted : List.Sorted (· ≤ ·)
      (((0 :: s.length :: boundaryMarkers.foldr (fun p acc => findIter p s ++ acc) []).dedup).insertionSort (· ≤ ·)) :=
    List.sorted_insertionSort _ _
  have hnodup : (((0 :: s.length :: boundaryMarkers.foldr (fun p acc => findIter p s ++ acc) []).dedup).insertionSort (· ≤ ·)).Nodup :=
    (List.perm_insertionSort _ _).symm.nodup (List.nodup_dedup _)
  exact (List.Pairwise.and hsorted hnodup).imp (fun h => lt_of_le_of_ne h.1 h.2)

theorem collectCandidates_offsets_strict_mono (cfg : Config) (tok : List Char → Nat)
    (s : List Char) (start : Nat) (ends : List Nat)
    (h : List.Pairwise (· < ·) ends) :
    List.Pairwise (fun a b : Nat × Nat × ℚ => a.1 < b.1)
      (collectCandidates cfg tok s start ends) := by
  rw [collectCandidates_eq_spec]
  unfold specCandidates
  rw [List.pairwise_map]
  exact h.sublist ((takeThrough_sublist _ _).trans (List.filter_sublist ends))

/-- Claim C6: `_find_best_end_point` scans candidate ends in increasing
offset order and stops immediately after keeping the first candidate whose
token count reaches `max_chunk_size` (later ends are never considered);
the returned end has the maximal combined score, and score ties are broken
in favour of the earliest offset (Python's stable descending sort keeps
the original increasing-offset order among equal scores). -/
theorem C6_scan_order_and_selection :
    (∀ (cfg : Config) (tok : List Char → Nat) (s : List Char) (start : Nat)
        (ends : List Nat),
      collectCandidates cfg tok s start ends = specCandidates cfg tok s start ends) ∧
    (∀ s : List Char, List.Pairwise (· < ·) (findSplitPoints s)) ∧
    (∀ (cfg : Config) (tok : List Char → Nat) (s : List Char) (start : Nat)
        (ends : List Nat), List.Pairwise (· < ·) ends →
      List.Pairwise (fun a b : Nat × Nat × ℚ => a.1 < b.1)
        (collectCandidates cfg tok s start ends)) ∧
    (∀ (cands : List (Nat × Nat × ℚ)) (b : Nat × Nat × ℚ),
      List.Pairwise (fun a c : Nat × Nat × ℚ => a.1 < c.1) cands →
      (sortDesc cands).head? = some b →
      b ∈ cands ∧ (∀ c ∈ cands, c.2.2 ≤ b.2.2) ∧
        (∀ c ∈ cands, c.2.2 = b.2.2 → b.1 ≤ c.1)) ∧
    (∀ (cfg : Config) (tok : List Char → Nat) (s : List Char) (start : Nat)
        (sp : List Nat) (b : Nat × Nat × ℚ),
      (sortDesc (collectCandidates cfg tok s start
        (sp.filter (fun p => start < p)))).head? = some b →
      findBestEndPoint cfg tok s start sp = b.1) := by
  refine ⟨collectCandidates_eq_spec, findSplitPoints_strict_mono,
    collectCandidates_offsets_strict_mono, ?_, ?_⟩
  · intro cands b hpw hhead
    rcases cands with _ | ⟨x, xs⟩
    · exact absurd hhead (by simp [sortDesc])
    · rw [sortDesc_head] at hhead
      have hb : b = fmGo x xs := (Option.some.inj hhead).symm
      subst hb
      refine ⟨?_, fmGo_le xs x, fmGo_earliest xs x hpw⟩
      rcases fmGo_cases xs x with heq | ⟨hmem, _⟩
      · rw [heq]
        exact List.mem_cons_self x xs
      · exact List.mem_cons.2 (Or.inr hmem)
  · intro cfg tok s start sp b hhead
    unfold findBestEndPoint
    rcases hv : sp.filter (fun p => start < p) with _ | ⟨v0, vs⟩
    · rw [hv] at hhead
      exact absurd hhead (by simp [collectCandidates, sortDesc])
    · rw [hv] at hhead
      rcases hsd : sortDesc (collectCandidates cfg tok s start (v0 :: vs)) with _ | ⟨best, rest⟩
      · rw [hsd] at hhead
        exact absurd hhead (by simp)
      · rw [hsd] at hhead
        rw [List.head?_cons] at hhead
        show (match sortDesc (collectCandidates cfg tok s start (v0 :: vs)) with
              | [] => min v0 (start + cfg.max_chunk_size)
              | best :: _ => best.1) = b.1
        rw [hsd]
        exact congrArg Prod.fst (Option.some.inj hhead)

theorem C6_scan_order_and_selection_witness :
    collectCandidates cfgTiny simpleTok abText 0 [2] =
      specCandidates cfgTiny simpleTok abText 0 [2] ∧
    (candW ∈ [candW] ∧ (∀ c ∈ [candW], c.2.2 ≤ candW.2.2) ∧
      (∀ c ∈ [candW], c.2.2 = candW.2.2 → candW.1 ≤ c.1)) ∧
    findBestEndPoint cfgTiny simpleTok abText 0 [0, 2] = candW.1 :=
  ⟨C6_scan_order_and_selection.1 cfgTiny simpleTok abText 0 [2],
   C6_scan_order_and_selection.2.2.2.1 [candW] candW (by simp) rfl,
   C6_scan_order_and_selection.2.2.2.2 cfgTiny simpleTok abText 0 [0, 2] candW rfl⟩
